import Mathlib

/-!
Verification development for the composite trigger dispatcher
(source: src/src/main.rs).

The embedding is shallow: Rust strings are lists of characters,
serde_json values are a small inductive with string, object and opaque
payloads, and the panicking `unwrap` calls of the source are modelled by
`Option` (with `none` standing for a panic).  Effectful operations
(serialization, filesystem writes) are modelled by an explicit
environment record and an association-list filesystem state, following
the spec's description of these collaborators (section 6).
-/

namespace Larks

/-- Strings, modelled as lists of characters. -/
abbrev Str := List Char

/-- Rust `str::starts_with` for a string pattern (`strStartsWith pat s`).
A single-character pattern models `starts_with('-')`. -/
def strStartsWith : Str → Str → Bool
  | [], _ => true
  | _ :: _, [] => false
  | p :: ps, c :: cs => p == c && strStartsWith ps cs

/-- Worker for `replaceAll`, structurally recursive on a fuel argument
that starts at the string length and stays at or above it (a match on a
non-empty pattern consumes `pat.length` characters and one fuel unit, a
non-match consumes one of each), so the fuel-exhausted arm is never
reached. -/
def replaceAllFuel (pat repl : Str) : Nat → Str → Str
  | _, [] => []
  | 0, c :: cs => c :: cs
  | n + 1, c :: cs =>
    if pat.length ≠ 0 ∧ strStartsWith pat (c :: cs) = true then
      repl ++ replaceAllFuel pat repl n (List.drop (pat.length - 1) cs)
    else
      c :: replaceAllFuel pat repl n cs

/-- Rust `str::replace`: replace every non-overlapping occurrence of
`pat`, scanning left to right, by `repl`.  Every call site in the source
passes a non-empty pattern; for the (unused) empty pattern this model
returns the string unchanged. -/
def replaceAll (pat repl s : Str) : Str := replaceAllFuel pat repl s.length s

/-- Association-list lookup (serde_json `Map::get`; maps produced by
serde never hold duplicate keys, so first-match lookup is faithful). -/
def alGet {α : Type} : List (Str × α) → Str → Option α
  | [], _ => none
  | (k, v) :: rest, key => if k = key then some v else alGet rest key

/-- Association-list insert (serde_json `Map::insert`: an existing key
keeps its position and gets the new value, a new key is appended). -/
def alPut {α : Type} : List (Str × α) → Str → α → List (Str × α)
  | [], key, v => [(key, v)]
  | (k, w) :: rest, key, v =>
    if k = key then (k, v) :: rest else (k, w) :: alPut rest key v

/-- Association-list removal of a key (serde_json `Map::remove`; serde
maps hold each key at most once, so removing all matches is faithful). -/
def alDrop {α : Type} : List (Str × α) → Str → List (Str × α)
  | [], _ => []
  | (k, w) :: rest, key =>
    if k = key then alDrop rest key else (k, w) :: alDrop rest key

/-- serde_json values, restricted to what the dispatcher inspects:
strings, objects, and opaque payloads it never looks inside. -/
inductive Json where
  | str (s : Str)
  | obj (entries : List (Str × Json))
  | other (tag : Nat)

/-- serde_json `Value::get` with a string index: `none` on non-objects. -/
def Json.getVal : Json → Str → Option Json
  | .obj m, k => alGet m k
  | _, _ => none

/-- serde_json `Value::as_str`. -/
def Json.asStr : Json → Option Str
  | .str s => some s
  | _ => none

/-- serde_json `Value::as_object`. -/
def Json.asObj : Json → Option (List (Str × Json))
  | .obj m => some m
  | _ => none

/-- spin_app `LockedTrigger`: id, trigger type tag, config value. -/
structure LockedTrigger where
  id : Str
  trigger_type : Str
  trigger_config : Json

/-- spin_app `LockedComponent`: the dispatcher only reads `id`; all
other component fields are opaque payload. -/
structure LockedComponent where
  id : Str
  payload : Json

/-- spin_app `LockedApp`: the fields the dispatcher touches. -/
structure LockedApp where
  components : List LockedComponent
  triggers : List LockedTrigger
  metadata : List (Str × Json)

/-- `Iterator::map` over a fallible body: `none` as soon as one element
panics (models a panic escaping a `map` closure mid-iteration). -/
def mapOpt {α β : Type} (f : α → Option β) : List α → Option (List β)
  | [] => some []
  | a :: as =>
    match f a with
    | none => none
    | some b =>
      match mapOpt f as with
      | none => none
      | some r => some (b :: r)

/-- `Iterator::filter` over a fallible predicate, evaluated left to
right; `none` as soon as the predicate panics. -/
def filterOpt {α : Type} (f : α → Option Bool) : List α → Option (List α)
  | [] => some []
  | a :: as =>
    match f a with
    | none => none
    | some b =>
      match filterOpt f as with
      | none => none
      | some r => some (if b then a :: r else r)

/-- Translation of `trigger_component_id` (main.rs 155-158).  The two
`unwrap`s (non-object config, missing or non-string `component`) are the
`none` outcomes. -/
def trigger_component_id (t : LockedTrigger) : Option Str :=
  match t.trigger_config.asObj with
  | none => none
  | some m => (alGet m ("component".toList)).bind Json.asStr

/-- Translation of `is_id_present` (main.rs 151-153): Rust
`Iterator::any` short-circuits, so triggers after the first match are
never inspected; `none` models the panic inside `trigger_component_id`. -/
def is_id_present : List LockedTrigger → Str → Option Bool
  | [], _ => some false
  | t :: ts, i =>
    match trigger_component_id t with
    | none => none
    | some cid => if cid = i then some true else is_id_present ts i

/-- Translation of `uncompositify` (main.rs 160-165): promote
`trigger_config.type` into the `trigger_type` field and remove the
`type` key from the config. -/
def uncompositify (t : LockedTrigger) : Option LockedTrigger :=
  match (t.trigger_config.getVal ("type".toList)).bind Json.asStr with
  | none => none
  | some rt =>
    match t.trigger_config.asObj with
    | none => none
    | some m =>
      some { t with
        trigger_type := rt
        trigger_config := Json.obj (alDrop m ("type".toList)) }

/-- The trigger filter of `locked_app_for_trigger` (main.rs 124):
`t.trigger_config.get("type").and_then(as_str) == Some(trigger_type)`. -/
def typeMatches (trigger_type : Str) (t : LockedTrigger) : Bool :=
  decide ((t.trigger_config.getVal ("type".toList)).bind Json.asStr = some trigger_type)

/-- The metadata fix-up block of `locked_app_for_trigger`
(main.rs 138-146), hoisted into a named function: keep the entries of
`o` whose key starts with `"<trigger_type>-"`, with every occurrence of
that prefix replaced by the empty string (Rust `String::replace`), then
insert `type = trigger_type`. -/
def rebuildTriggerMeta (o : List (Str × Json)) (trigger_type : Str) : List (Str × Json) :=
  alPut
    (o.foldl
      (fun acc kv =>
        if strStartsWith (trigger_type ++ ['-']) kv.1 then
          alPut acc (replaceAll (trigger_type ++ ['-']) [] kv.1) kv.2
        else acc)
      [])
    ("type".toList) (Json.str trigger_type)

/-- Translation of `locked_app_for_trigger` (main.rs 117-149), the
manifest partitioner.  Each `unwrap` in the source is an `Option` step;
`none` is a panic aborting the run. -/
def locked_app_for_trigger (app : LockedApp) (trigger_type : Str) : Option LockedApp :=
  match mapOpt uncompositify (List.filter (typeMatches trigger_type) app.triggers) with
  | none => none
  | some triggers =>
    match filterOpt (fun c => is_id_present triggers c.id) app.components with
    | none => none
    | some components =>
      match alGet app.metadata ("trigger".toList) with
      | none => none
      | some trigger =>
        match trigger.asObj with
        | none => none
        | some o =>
          some { app with
            triggers := triggers
            components := components
            metadata := alPut app.metadata ("trigger".toList)
              (Json.obj (rebuildTriggerMeta o trigger_type)) }

/-- `grupps.last_mut().unwrap().push(arg)` (main.rs 110): append `a` to
the last group, `none` (panic) when there is no group yet. -/
def pushLast : List (List Str) → Str → Option (List (List Str))
  | [], _ => none
  | [g], a => some [g ++ [a]]
  | g :: g2 :: gs, a => (pushLast (g2 :: gs) a).map (g :: ·)

/-- One iteration of the loop in `gruppified_args` (main.rs 104-111):
a hyphen-leading token opens a new group, then the token is pushed onto
the last group. -/
def gruppStep (acc : Option (List (List Str))) (arg : Str) : Option (List (List Str)) :=
  acc.bind fun gs =>
    pushLast (if strStartsWith ['-'] arg then gs ++ [[]] else gs) arg

/-- Translation of `gruppified_args` (main.rs 100-114). -/
def gruppified_args (args : List Str) : Option (List (List Str)) :=
  args.foldl gruppStep (some [])

/-- The prefix `format!("--{trigger_type}-")` (main.rs 82). -/
def ttArgPfx (trigger_type : Str) : Str := '-' :: '-' :: (trigger_type ++ ['-'])

/-- Concatenation of a list of token lists (`args.extend(grupp)` across
the loop of `args_for_trigger`). -/
def flat {α : Type} : List (List α) → List α
  | [] => []
  | l :: ls => l ++ flat ls

/-- One iteration of the loop in `args_for_trigger` (main.rs 86-95):
`grupp[0]` on an empty group would panic (`none`); a selected group has
its first token rewritten by `String::replace` of the prefix with
`"--"`, an unselected group contributes nothing. -/
def routeGrupp (p : Str) : List Str → Option (List Str)
  | [] => none
  | a :: rest =>
    some (if strStartsWith p a then replaceAll p ['-', '-'] a :: rest else [])

/-- Translation of `args_for_trigger` (main.rs 80-98), the argument
router. -/
def args_for_trigger (args : List Str) (trigger_type : Str) : Option (List Str) :=
  match gruppified_args args with
  | none => none
  | some gs =>
    match mapOpt (routeGrupp (ttArgPfx trigger_type)) gs with
    | none => none
    | some routed => some (flat routed)

/-- Rust `Path::join` with a relative component (sufficient for the one
join the source performs). -/
def pathJoin (dir file : Str) : Str := if dir = [] then file else dir ++ '/' :: file

/-- The lock file path `working_dir.join(format!("spin.{trigger_type}.lock"))`
(main.rs 173). -/
def lockPath (working_dir trigger_type : Str) : Str :=
  pathJoin working_dir ("spin.".toList ++ trigger_type ++ ".lock".toList)

/-- `Url::from_file_path` (main.rs 179): succeeds exactly on absolute
paths, yielding a `file://` URL for the path. -/
def urlFromFilePath (p : Str) : Option Str :=
  if strStartsWith ['/'] p then some ("file://".toList ++ p) else none

/-- Environment of the effectful writer: the serialization collaborator
(`serde_json::to_vec_pretty`, which may fail) and the filesystem's
disposition to accept a write at a given path (permissions, disk). -/
structure Env where
  serializeResult : LockedApp → Option Str
  fsWriteOk : Str → Bool

/-- Filesystem state: path to contents. -/
abbrev FS := List (Str × Str)

/-- Result of `write_locked_app`: the returned URL, or which step of the
function failed. -/
inductive WriteOutcome where
  | ok (url : Str)
  | serializeFailed
  | writeFailed
  | urlFailed
deriving DecidableEq

/-- Translation of `write_locked_app` (main.rs 168-184): serialize, then
write (overwriting), then convert the path to a file URL.  The returned
filesystem state records the write. -/
def write_locked_app (env : Env) (fs : FS) (locked_app : LockedApp)
    (trigger_type working_dir : Str) : FS × WriteOutcome :=
  let locked_path := lockPath working_dir trigger_type
  match env.serializeResult locked_app with
  | none => (fs, .serializeFailed)
  | some contents =>
    if env.fsWriteOk locked_path then
      let fs2 := alPut fs locked_path contents
      match urlFromFilePath locked_path with
      | none => (fs2, .urlFailed)
      | some u => (fs2, .ok u)
    else (fs, .writeFailed)

/-- Observable events of the supervisor loop: a completed manifest write
for a type, and the hand-off of that type's child to the spawner. -/
inductive Event where
  | wrote (trigger_type : Str)
  | spawned (trigger_type : Str)
deriving DecidableEq

/-- Translation of the per-type loop of `CompositeApp::run`
(main.rs 48-66) as an event trace over the discovered trigger types, in
iteration order: partition, route, write, then spawn, for each type in
turn.  The spawned task launches the child before the loop's next write
completes, so the `spawned` event is placed at the point of
`JoinSet::spawn`.  A partition panic, a routing panic or a write failure
aborts the loop (`Bool` result `false`) with no further events. -/
def runEvents (env : Env) (rawArgs : List Str) (working_dir : Str)
    (app : LockedApp) : FS → List Str → List Event × Bool
  | _, [] => ([], true)
  | fs, tt :: rest =>
    match locked_app_for_trigger app tt with
    | none => ([], false)
    | some subapp =>
      match args_for_trigger rawArgs tt with
      | none => ([], false)
      | some _ =>
        match write_locked_app env fs subapp tt working_dir with
        | (fs2, WriteOutcome.ok _) =>
          let next := runEvents env rawArgs working_dir app fs2 rest
          (Event.wrote tt :: Event.spawned tt :: next.1, next.2)
        | (_, _) => ([], false)

/-! ### Claim-side definitions and concrete instances -/

/-- The triggers of `app` surviving the type filter for `trigger_type`
(main.rs 121-124, before `uncompositify`). -/
def survivingTriggers (d : LockedApp) (trigger_type : Str) : List LockedTrigger :=
  List.filter (typeMatches trigger_type) d.triggers

/-- A group is selected for routing when its first token starts with the
routing prefix. -/
def selectedGroup (p : Str) (g : List Str) : Bool := strStartsWith p (g.headD [])

/-- Rewriting of a selected group: the first token has every occurrence
of the routing prefix replaced by `"--"` (Rust `str::replace`), the
remaining tokens are unchanged. -/
def rewriteGroup (p : Str) : List Str → List Str
  | [] => []
  | a :: rest => replaceAll p ['-', '-'] a :: rest

/-- Claim-side router for C1, following the claim's words: rewrite only
the leading occurrence of the prefix in the first token of a selected
group (everything else exactly as the code router). -/
def routeGruppClaimed (p : Str) : List Str → Option (List Str)
  | [] => none
  | a :: rest =>
    some (if strStartsWith p a then ('-' :: '-' :: List.drop p.length a) :: rest else [])

/-- Claim-side version of the whole router for C1 (leading-prefix-only
rewrite). -/
def routeClaimedC1 (args : List Str) (trigger_type : Str) : Option (List Str) :=
  match gruppified_args args with
  | none => none
  | some gs =>
    match mapOpt (routeGruppClaimed (ttArgPfx trigger_type)) gs with
    | none => none
    | some routed => some (flat routed)

/-- Claim-side metadata rebuild for C5, following the claim's words:
strip only the leading `"<type>-"` prefix of a matching key (not every
occurrence). -/
def rebuildTriggerMetaClaimed (o : List (Str × Json)) (trigger_type : Str) : List (Str × Json) :=
  alPut
    (o.foldl
      (fun acc kv =>
        if strStartsWith (trigger_type ++ ['-']) kv.1 then
          alPut acc (List.drop (trigger_type ++ ['-']).length kv.1) kv.2
        else acc)
      [])
    ("type".toList) (Json.str trigger_type)

/-- The file name the C2 claim asserts the writer uses. -/
def manifestPath (working_dir trigger_type : Str) : Str :=
  pathJoin working_dir ("manifest.".toList ++ trigger_type ++ ".lock".toList)

/-- `true` on a `wrote` event. -/
def isWroteEvent : Event → Bool
  | .wrote _ => true
  | .spawned _ => false

/-- Whether every `wrote` event of a trace precedes every `spawned`
event (the ordering the C3 claim asserts). -/
def writesBeforeSpawns : List Event → Bool
  | [] => true
  | Event.wrote _ :: rest => writesBeforeSpawns rest
  | Event.spawned _ :: rest => rest.all (fun e => !(isWroteEvent e))

/-- The trace shape the run loop actually produces on the types it fully
processes: write then spawn, per type, in order. -/
def launchTrace : List Str → List Event
  | [] => []
  | t :: ts => Event.wrote t :: Event.spawned t :: launchTrace ts

/-- A benign environment: serialization always yields `"B"`, every
filesystem write succeeds. -/
def envOk : Env := ⟨fun _ => some ("B".toList), fun _ => true⟩

/-- A descriptor with no triggers or components and an empty
`metadata.trigger` object: the partitioner succeeds on it for any type. -/
def appEmptyTrig : LockedApp := ⟨[], [], [("trigger".toList, Json.obj [])]⟩

/-- Components of the end-to-end example of the spec (section 8). -/
def c1comp : LockedComponent := ⟨"c1".toList, Json.other 0⟩

def c2comp : LockedComponent := ⟨"c2".toList, Json.other 1⟩

/-- The http trigger of the end-to-end example. -/
def t1trig : LockedTrigger :=
  ⟨"t1".toList, [], Json.obj [("type".toList, Json.str ("http".toList)),
    ("component".toList, Json.str ("c1".toList))]⟩

/-- The redis trigger of the end-to-end example. -/
def t2trig : LockedTrigger :=
  ⟨"t2".toList, [], Json.obj [("type".toList, Json.str ("redis".toList)),
    ("component".toList, Json.str ("c2".toList))]⟩

/-- The end-to-end example descriptor of the spec (section 8). -/
def d7 : LockedApp :=
  ⟨[c1comp, c2comp], [t1trig, t2trig],
   [("trigger".toList, Json.obj [("http-base".toList, Json.str ("/".toList)),
     ("redis-address".toList, Json.str ("x".toList))])]⟩

/-- The value of `locked_app_for_trigger d7 "http"`. -/
def app7res : LockedApp :=
  ⟨[c1comp],
   [⟨"t1".toList, "http".toList, Json.obj [("component".toList, Json.str ("c1".toList))]⟩],
   [("trigger".toList, Json.obj [("base".toList, Json.str ("/".toList)),
     ("type".toList, Json.str ("http".toList))])]⟩

/-- C4 counterexample descriptor: `tA` well formed, `tB` lacking `type`,
`tC` of type http lacking `component`, one component `c` referenced by
`tA`. -/
def dC4 : LockedApp :=
  ⟨[⟨"c".toList, Json.other 0⟩],
   [⟨"tA".toList, [], Json.obj [("type".toList, Json.str ("http".toList)),
      ("component".toList, Json.str ("c".toList))]⟩,
    ⟨"tB".toList, [], Json.obj [("component".toList, Json.str ("c".toList))]⟩,
    ⟨"tC".toList, [], Json.obj [("type".toList, Json.str ("http".toList))]⟩],
   [("trigger".toList, Json.obj [])]⟩

/-- C5 counterexample descriptor: a metadata trigger key in which the
`"http-"` prefix occurs twice. -/
def d5 : LockedApp :=
  ⟨[], [], [("trigger".toList, Json.obj [("http-http-x".toList, Json.str ("v".toList))])]⟩

end Larks

namespace Larks

/-! ### Association list lemmas -/

theorem alGet_alPut_self {α : Type} (m : List (Str × α)) (k : Str) (v : α) :
    alGet (alPut m k v) k = some v := by
  induction m with
  | nil => simp [alPut, alGet]
  | cons kv rest ih =>
    obtain ⟨k1, w⟩ := kv
    by_cases h : k1 = k
    · subst h
      simp [alPut, alGet]
    · simp [alPut, alGet, h, ih]

theorem alGet_alPut_ne {α : Type} (m : List (Str × α)) (k k' : Str) (v : α)
    (h : k' ≠ k) : alGet (alPut m k v) k' = alGet m k' := by
  have hk : k ≠ k' := fun hh => h hh.symm
  induction m with
  | nil => simp [alPut, alGet, hk]
  | cons kv rest ih =>
    obtain ⟨k1, w⟩ := kv
    by_cases h1 : k1 = k
    · subst h1
      simp [alPut, alGet, hk]
    · simp [alPut, alGet, h1, ih]

theorem alGet_alDrop_self {α : Type} (m : List (Str × α)) (k : Str) :
    alGet (alDrop m k) k = none := by
  induction m with
  | nil => simp [alDrop, alGet]
  | cons kv rest ih =>
    obtain ⟨k1, w⟩ := kv
    by_cases h : k1 = k
    · simp [alDrop, h, ih]
    · simp [alDrop, alGet, h, ih]

theorem alGet_alDrop_ne {α : Type} (m : List (Str × α)) (k k' : Str)
    (h : k' ≠ k) : alGet (alDrop m k) k' = alGet m k' := by
  have hk : k ≠ k' := fun hh => h hh.symm
  induction m with
  | nil => simp [alDrop]
  | cons kv rest ih =>
    obtain ⟨k1, w⟩ := kv
    by_cases h1 : k1 = k
    · subst h1
      simp [alDrop, alGet, hk, ih]
    · simp [alDrop, alGet, h1, ih]

/-! ### flat lemmas -/

theorem flat_append {α : Type} (xs ys : List (List α)) :
    flat (xs ++ ys) = flat xs ++ flat ys := by
  induction xs with
  | nil => simp [flat]
  | cons l ls ih => simp [flat, ih]

theorem flat_concat {α : Type} (xs : List (List α)) (x : List α) :
    flat (xs ++ [x]) = flat xs ++ x := by
  simp [flat_append, flat]

/-! ### Grouping lemmas -/

theorem pushLast_concat (xs : List (List Str)) (x : List Str) (a : Str) :
    pushLast (xs ++ [x]) a = some (xs ++ [x ++ [a]]) := by
  induction xs with
  | nil => rfl
  | cons y ys ih =>
    cases ys with
    | nil => rfl
    | cons z zs =>
      have h0 : pushLast ((y :: z :: zs) ++ [x]) a
          = (pushLast ((z :: zs) ++ [x]) a).map (y :: ·) := rfl
      rw [h0, ih]
      rfl

theorem foldl_gruppStep_none (l : List Str) :
    l.foldl gruppStep none = none := by
  induction l with
  | nil => rfl
  | cons a rest ih => simpa [gruppStep] using ih

/-- Main grouping invariant: starting from a non-empty group list whose
groups are all non-empty, the fold never panics, it concatenates back to
the flattened start followed by the remaining tokens, and all groups stay
non-empty. -/
theorem gruppGo (args : List Str) :
    ∀ (xs : List (List Str)) (x : List Str),
      (∀ g ∈ xs ++ [x], g ≠ []) →
      ∃ (ys : List (List Str)) (y : List Str),
        List.foldl gruppStep (some (xs ++ [x])) args = some (ys ++ [y]) ∧
        flat (ys ++ [y]) = flat (xs ++ [x]) ++ args ∧
        (∀ g ∈ ys ++ [y], g ≠ []) := by
  induction args with
  | nil =>
    intro xs x hne
    exact ⟨xs, x, rfl, by simp, hne⟩
  | cons a rest ih =>
    intro xs x hne
    by_cases hh : strStartsWith ['-'] a = true
    · have hstep : gruppStep (some (xs ++ [x])) a = some ((xs ++ [x]) ++ [[a]]) := by
        have h0 : gruppStep (some (xs ++ [x])) a = pushLast ((xs ++ [x]) ++ [[]]) a := by
          simp [gruppStep, hh]
        rw [h0, pushLast_concat]
        simp
      obtain ⟨ys, y, h1, h2, h3⟩ := ih (xs ++ [x]) [a] (by
        intro g hg
        rcases List.mem_append.mp hg with hg1 | hg1
        · exact hne g hg1
        · simp only [List.mem_singleton] at hg1
          subst hg1
          simp)
      refine ⟨ys, y, ?_, ?_, h3⟩
      · rw [List.foldl_cons, hstep]
        exact h1
      · rw [h2, flat_concat, flat_concat]
        simp
    · have hstep : gruppStep (some (xs ++ [x])) a = some (xs ++ [x ++ [a]]) := by
        have h0 : gruppStep (some (xs ++ [x])) a = pushLast (xs ++ [x]) a := by
          simp [gruppStep, hh]
        rw [h0, pushLast_concat]
      obtain ⟨ys, y, h1, h2, h3⟩ := ih xs (x ++ [a]) (by
        intro g hg
        rcases List.mem_append.mp hg with hg1 | hg1
        · exact hne g (List.mem_append.mpr (Or.inl hg1))
        · simp only [List.mem_singleton] at hg1
          subst hg1
          simp)
      refine ⟨ys, y, ?_, ?_, h3⟩
      · rw [List.foldl_cons, hstep]
        exact h1
      · rw [h2, flat_concat, flat_concat]
        simp

/-- Characterisation of a successful grouping: the groups flatten back
to the input and every group is non-empty. -/
theorem gruppified_props (args : List Str) (gs : List (List Str))
    (h : gruppified_args args = some gs) :
    flat gs = args ∧ (∀ g ∈ gs, g ≠ []) := by
  cases args with
  | nil =>
    simp only [gruppified_args, List.foldl_nil, Option.some_inj] at h
    subst h
    exact ⟨rfl, by simp⟩
  | cons a rest =>
    by_cases hh : strStartsWith ['-'] a = true
    · have hstep : gruppStep (some []) a = some ([] ++ [[a]]) := by
        simp [gruppStep, hh, pushLast]
      obtain ⟨ys, y, h1, h2, h3⟩ := gruppGo rest [] [a] (by simp)
      rw [gruppified_args, List.foldl_cons, hstep, h1] at h
      have hgs : ys ++ [y] = gs := Option.some_inj.mp h
      subst hgs
      refine ⟨?_, h3⟩
      rw [h2]
      simp [flat]
    · exfalso
      have hstep : gruppStep (some []) a = none := by
        simp [gruppStep, hh, pushLast]
      rw [gruppified_args, List.foldl_cons, hstep, foldl_gruppStep_none] at h
      exact Option.noConfusion h

/-! ### Option combinator lemmas -/

theorem mapOpt_mem {α β : Type} (f : α → Option β) (l : List α) (r : List β)
    (h : mapOpt f l = some r) : ∀ b ∈ r, ∃ a ∈ l, f a = some b := by
  induction l generalizing r with
  | nil =>
    simp only [mapOpt, Option.some_inj] at h
    subst h
    simp
  | cons a as ih =>
    simp only [mapOpt] at h
    cases hfa : f a with
    | none => rw [hfa] at h; exact Option.noConfusion h
    | some b0 =>
      rw [hfa] at h
      cases hrec : mapOpt f as with
      | none => rw [hrec] at h; exact Option.noConfusion h
      | some r0 =>
        rw [hrec] at h
        have hr : b0 :: r0 = r := Option.some_inj.mp h
        subst hr
        intro b hb
        rcases List.mem_cons.mp hb with hb1 | hb1
        · subst hb1
          exact ⟨a, List.mem_cons_self a as, hfa⟩
        · obtain ⟨a1, ha1, hfa1⟩ := ih r0 hrec b hb1
          exact ⟨a1, List.mem_cons_of_mem a ha1, hfa1⟩

theorem mapOpt_isSome {α β : Type} (f : α → Option β) (l : List α)
    (h : ∀ a ∈ l, (f a).isSome = true) : (mapOpt f l).isSome = true := by
  induction l with
  | nil => simp [mapOpt]
  | cons a as ih =>
    have ha := h a (List.mem_cons_self a as)
    cases hfa : f a with
    | none => rw [hfa] at ha; simp at ha
    | some b =>
      have hrec := ih (fun x hx => h x (List.mem_cons_of_mem a hx))
      cases hr : mapOpt f as with
      | none => rw [hr] at hrec; simp at hrec
      | some r => simp [mapOpt, hfa, hr]

/-- Transfer of an existential across a successful fallible map, when
the mapped elements agree pairwise on the two predicates. -/
theorem mapOpt_exists_iff {α β : Type} (f : α → Option β) (l : List α) (r : List β)
    (P : β → Prop) (Q : α → Prop)
    (hPQ : ∀ a b, f a = some b → (P b ↔ Q a))
    (h : mapOpt f l = some r) : (∃ b ∈ r, P b) ↔ (∃ a ∈ l, Q a) := by
  induction l generalizing r with
  | nil =>
    simp only [mapOpt, Option.some_inj] at h
    subst h
    simp
  | cons a as ih =>
    simp only [mapOpt] at h
    cases hfa : f a with
    | none => rw [hfa] at h; exact Option.noConfusion h
    | some b0 =>
      rw [hfa] at h
      cases hrec : mapOpt f as with
      | none => rw [hrec] at h; exact Option.noConfusion h
      | some r0 =>
        rw [hrec] at h
        have hr : b0 :: r0 = r := Option.some_inj.mp h
        subst hr
        have hih := ih r0 hrec
        constructor
        · rintro ⟨b, hb, hPb⟩
          rcases List.mem_cons.mp hb with hb1 | hb1
          · subst hb1
            exact ⟨a, List.mem_cons_self a as, (hPQ a b hfa).mp hPb⟩
          · obtain ⟨a1, ha1, hQ⟩ := hih.mp ⟨b, hb1, hPb⟩
            exact ⟨a1, List.mem_cons_of_mem a ha1, hQ⟩
        · rintro ⟨a1, ha1, hQ⟩
          rcases List.mem_cons.mp ha1 with ha2 | ha2
          · subst ha2
            exact ⟨b0, List.mem_cons_self b0 r0, (hPQ a1 b0 hfa).mpr hQ⟩
          · obtain ⟨b, hb, hPb⟩ := hih.mpr ⟨a1, ha2, hQ⟩
            exact ⟨b, List.mem_cons_of_mem b0 hb, hPb⟩

theorem filterOpt_eq {α : Type} (f : α → Option Bool) (l : List α) (r : List α)
    (h : filterOpt f l = some r) :
    r = l.filter (fun a => decide (f a = some true)) := by
  induction l generalizing r with
  | nil =>
    simp only [filterOpt, Option.some_inj] at h
    subst h
    simp
  | cons a as ih =>
    simp only [filterOpt] at h
    cases hfa : f a with
    | none => rw [hfa] at h; exact Option.noConfusion h
    | some b =>
      rw [hfa] at h
      cases hrec : filterOpt f as with
      | none => rw [hrec] at h; exact Option.noConfusion h
      | some r0 =>
        rw [hrec] at h
        have hr : (if b then a :: r0 else r0) = r := Option.some_inj.mp h
        subst hr
        cases b with
        | true => simp [List.filter, hfa, ih r0 hrec]
        | false => simp [List.filter, hfa, ih r0 hrec]

theorem filterOpt_isSome {α : Type} (f : α → Option Bool) (l : List α)
    (h : ∀ a ∈ l, (f a).isSome = true) : (filterOpt f l).isSome = true := by
  induction l with
  | nil => simp [filterOpt]
  | cons a as ih =>
    have ha := h a (List.mem_cons_self a as)
    cases hfa : f a with
    | none => rw [hfa] at ha; simp at ha
    | some b =>
      have hrec := ih (fun x hx => h x (List.mem_cons_of_mem a hx))
      cases hr : filterOpt f as with
      | none => rw [hr] at hrec; simp at hrec
      | some r => simp [filterOpt, hfa, hr]

theorem filterOpt_forall {α : Type} (f : α → Option Bool) (l : List α) (r : List α)
    (h : filterOpt f l = some r) : ∀ a ∈ l, (f a).isSome = true := by
  induction l generalizing r with
  | nil => simp
  | cons a as ih =>
    simp only [filterOpt] at h
    cases hfa : f a with
    | none => rw [hfa] at h; exact Option.noConfusion h
    | some b =>
      rw [hfa] at h
      cases hrec : filterOpt f as with
      | none => rw [hrec] at h; exact Option.noConfusion h
      | some r0 =>
        intro x hx
        rcases List.mem_cons.mp hx with hx1 | hx1
        · subst hx1; simp [hfa]
        · exact ih r0 hrec x hx1

/-! ### Trigger helper lemmas -/

theorem is_id_present_iff (ts : List LockedTrigger) (i : Str) (b : Bool)
    (h : is_id_present ts i = some b) :
    (b = true ↔ ∃ t ∈ ts, trigger_component_id t = some i) := by
  induction ts generalizing b with
  | nil =>
    simp only [is_id_present, Option.some_inj] at h
    subst h
    simp
  | cons t ts ih =>
    cases hc : trigger_component_id t with
    | none =>
      simp only [is_id_present, hc] at h
      exact Option.noConfusion h
    | some cid =>
      simp only [is_id_present, hc] at h
      by_cases he : cid = i
      · rw [if_pos he] at h
        have hb : true = b := Option.some_inj.mp h
        subst hb
        subst he
        simp only [true_iff]
        exact ⟨t, List.mem_cons_self t ts, hc⟩
      · rw [if_neg he] at h
        rw [ih b h]
        constructor
        · rintro ⟨t1, ht1, hc1⟩
          exact ⟨t1, List.mem_cons_of_mem t ht1, hc1⟩
        · rintro ⟨t1, ht1, hc1⟩
          rcases List.mem_cons.mp ht1 with ht2 | ht2
          · subst ht2
            rw [hc] at hc1
            exact absurd (Option.some_inj.mp hc1) he
          · exact ⟨t1, ht2, hc1⟩

theorem is_id_present_isSome (ts : List LockedTrigger) (i : Str)
    (h : ∀ t ∈ ts, (trigger_component_id t).isSome = true) :
    (is_id_present ts i).isSome = true := by
  induction ts with
  | nil => simp [is_id_present]
  | cons t ts ih =>
    have ht := h t (List.mem_cons_self t ts)
    cases hc : trigger_component_id t with
    | none => rw [hc] at ht; simp at ht
    | some cid =>
      by_cases he : cid = i
      · simp [is_id_present, hc, he]
      · have := ih (fun x hx => h x (List.mem_cons_of_mem t hx))
        simp only [is_id_present, hc, if_neg he]
        exact this

theorem getVal_some_obj (j : Json) (k : Str) (v : Json)
    (h : j.getVal k = some v) : ∃ m, j = Json.obj m ∧ alGet m k = some v := by
  cases j with
  | str s => exact Option.noConfusion h
  | other n => exact Option.noConfusion h
  | obj m => exact ⟨m, rfl, h⟩

theorem asObj_some (j : Json) (m : List (Str × Json)) (h : j.asObj = some m) :
    j = Json.obj m := by
  cases j with
  | obj m1 =>
    simp only [Json.asObj, Option.some_inj] at h
    rw [h]
  | str s => simp [Json.asObj] at h
  | other n => simp [Json.asObj] at h

theorem typeMatches_uncomp (tt : Str) (t : LockedTrigger)
    (h : typeMatches tt t = true) :
    ∃ m, t.trigger_config = Json.obj m ∧
      uncompositify t = some { t with
        trigger_type := tt
        trigger_config := Json.obj (alDrop m ("type".toList)) } := by
  have h1 : (t.trigger_config.getVal ("type".toList)).bind Json.asStr = some tt := by
    simpa [typeMatches] using h
  cases hg : t.trigger_config.getVal ("type".toList) with
  | none => rw [hg] at h1; exact Option.noConfusion h1
  | some v =>
    obtain ⟨m, hm, hmg⟩ := getVal_some_obj _ _ _ hg
    rw [hm] at h1
    refine ⟨m, hm, ?_⟩
    simp only [uncompositify, hm, h1, Json.asObj]

theorem uncomp_component (t t2 : LockedTrigger)
    (h : uncompositify t = some t2) :
    trigger_component_id t2 = trigger_component_id t := by
  cases h1 : (t.trigger_config.getVal ("type".toList)).bind Json.asStr with
  | none =>
    simp only [uncompositify, h1] at h
    exact Option.noConfusion h
  | some rt =>
    simp only [uncompositify, h1] at h
    cases h2 : t.trigger_config.asObj with
    | none =>
      simp only [h2] at h
      exact Option.noConfusion h
    | some m =>
      simp only [h2, Option.some_inj] at h
      have hm := asObj_some _ _ h2
      subst h
      simp only [trigger_component_id, hm, Json.asObj]
      rw [alGet_alDrop_ne]
      decide

/-- Decomposition of a successful partition into its four steps. -/
theorem laft_parts (app : LockedApp) (tt : Str) (app2 : LockedApp)
    (h : locked_app_for_trigger app tt = some app2) :
    ∃ triggers components o,
      mapOpt uncompositify (List.filter (typeMatches tt) app.triggers) = some triggers ∧
      filterOpt (fun c => is_id_present triggers c.id) app.components = some components ∧
      alGet app.metadata ("trigger".toList) = some (Json.obj o) ∧
      app2 = { app with
        triggers := triggers
        components := components
        metadata := alPut app.metadata ("trigger".toList)
          (Json.obj (rebuildTriggerMeta o tt)) } := by
  simp only [locked_app_for_trigger] at h
  cases h1 : mapOpt uncompositify (List.filter (typeMatches tt) app.triggers) with
  | none =>
    simp only [h1] at h
    exact Option.noConfusion h
  | some triggers =>
    simp only [h1] at h
    cases h2 : filterOpt (fun c => is_id_present triggers c.id) app.components with
    | none =>
      simp only [h2] at h
      exact Option.noConfusion h
    | some components =>
      simp only [h2] at h
      cases h3 : alGet app.metadata ("trigger".toList) with
      | none =>
        simp only [h3] at h
        exact Option.noConfusion h
      | some trigger =>
        simp only [h3] at h
        cases h4 : trigger.asObj with
        | none =>
          simp only [h4] at h
          exact Option.noConfusion h
        | some o =>
          simp only [h4, Option.some_inj] at h
          have htr := asObj_some trigger o h4
          subst htr
          exact ⟨triggers, components, o, rfl, h2, rfl, h.symm⟩

/-! ### Routing lemmas -/

theorem mapOpt_routeGrupp (p : Str) (gs : List (List Str))
    (hne : ∀ g ∈ gs, g ≠ []) :
    mapOpt (routeGrupp p) gs
      = some (gs.map (fun g => if selectedGroup p g then rewriteGroup p g else [])) := by
  induction gs with
  | nil => rfl
  | cons g rest ih =>
    obtain ⟨a, g2, hg⟩ : ∃ a g2, g = a :: g2 := by
      cases g with
      | nil => exact absurd rfl (hne [] (List.mem_cons_self _ _))
      | cons a g2 => exact ⟨a, g2, rfl⟩
    subst hg
    have hr := ih (fun x hx => hne x (List.mem_cons_of_mem _ hx))
    simp only [mapOpt, routeGrupp, hr, List.map_cons]
    by_cases hp : strStartsWith p a = true
    · simp [selectedGroup, rewriteGroup, hp]
    · simp [selectedGroup, rewriteGroup, hp]

theorem flat_if_filter (p : Str) (gs : List (List Str)) :
    flat (gs.map (fun g => if selectedGroup p g then rewriteGroup p g else []))
      = flat ((gs.filter (selectedGroup p)).map (rewriteGroup p)) := by
  induction gs with
  | nil => rfl
  | cons g rest ih =>
    by_cases hp : selectedGroup p g = true
    · simp [flat, List.filter_cons, hp, ih]
    · simp [flat, List.filter_cons, hp, ih]

/-! ### Claim C8 -/

/-- C8: for every token sequence whose first token is hyphen-prefixed,
flattening the groups produced by the grouping step reconstructs the
original token sequence exactly, in order. -/
theorem c8_grouping_complete (a : Str) (rest : List Str)
    (h : strStartsWith ['-'] a = true) :
    ∃ gs, gruppified_args (a :: rest) = some gs ∧ flat gs = a :: rest := by
  have hstep : gruppStep (some []) a = some ([] ++ [[a]]) := by
    simp [gruppStep, h, pushLast]
  obtain ⟨ys, y, h1, h2, h3⟩ := gruppGo rest [] [a] (by simp)
  refine ⟨ys ++ [y], ?_, ?_⟩
  · rw [gruppified_args, List.foldl_cons, hstep]
    exact h1
  · rw [h2]
    simp [flat]

/-- Witness for C8 at a concrete token list. -/
theorem c8_grouping_complete_witness :
    strStartsWith ['-'] ("-v".toList) = true ∧
    ∃ gs, gruppified_args ["-v".toList, "x".toList] = some gs ∧
      flat gs = ["-v".toList, "x".toList] :=
  ⟨by decide, c8_grouping_complete ("-v".toList) ["x".toList] (by decide)⟩

/-! ### Claim C9 -/

/-- C9: the grouping step succeeds (its `unwrap` never panics) exactly
when the token list is empty or its first token starts with a hyphen;
for a non-empty list whose first token is not hyphen-prefixed the unwrap
fails (`none`). -/
theorem c9_grouping_panic (args : List Str) :
    (gruppified_args args).isSome =
      (match args with
       | [] => true
       | a :: _ => strStartsWith ['-'] a) := by
  cases args with
  | nil => rfl
  | cons a rest =>
    by_cases hh : strStartsWith ['-'] a = true
    · have hstep : gruppStep (some []) a = some ([] ++ [[a]]) := by
        simp [gruppStep, hh, pushLast]
      obtain ⟨ys, y, h1, h2, h3⟩ := gruppGo rest [] [a] (by simp)
      rw [gruppified_args, List.foldl_cons, hstep, h1]
      exact hh.symm
    · have hstep : gruppStep (some []) a = none := by
        simp [gruppStep, hh, pushLast]
      rw [gruppified_args, List.foldl_cons, hstep, foldl_gruppStep_none]
      simp only [Bool.not_eq_true] at hh
      exact hh.symm

/-! ### Claim C1 -/

/-- C1 (amended): on any token list accepted by the grouping step, the
router keeps exactly the groups whose first token starts with
`"--<type>-"`, rewrites the first token of each kept group by replacing
EVERY non-overlapping occurrence of that prefix with `"--"` (Rust
`str::replace`, not only the leading occurrence), keeps the remaining
tokens of the group unchanged, discards unselected groups, and returns
the rewritten groups concatenated in their original order. -/
theorem c1_route_replace_all (args : List Str) (trigger_type : Str)
    (gs : List (List Str)) (h : gruppified_args args = some gs) :
    args_for_trigger args trigger_type =
      some (flat ((gs.filter (selectedGroup (ttArgPfx trigger_type))).map
        (rewriteGroup (ttArgPfx trigger_type)))) := by
  obtain ⟨-, hne⟩ := gruppified_props args gs h
  simp only [args_for_trigger, h, mapOpt_routeGrupp (ttArgPfx trigger_type) gs hne,
    flat_if_filter]

/-- Witness for C1 on the end-to-end example argument list. -/
theorem c1_route_replace_all_witness :
    gruppified_args ["--http-base".toList, "/api".toList,
        "--redis-address".toList, "x".toList]
      = some [["--http-base".toList, "/api".toList],
              ["--redis-address".toList, "x".toList]] ∧
    args_for_trigger ["--http-base".toList, "/api".toList,
        "--redis-address".toList, "x".toList] ("http".toList) =
      some (flat (([["--http-base".toList, "/api".toList],
          ["--redis-address".toList, "x".toList]].filter
            (selectedGroup (ttArgPfx ("http".toList)))).map
        (rewriteGroup (ttArgPfx ("http".toList))))) :=
  ⟨rfl, c1_route_replace_all _ ("http".toList) _ rfl⟩

/-- Counterexample to C1 as stated: on the token `"--http---http-x"`
the code rewrites every occurrence of the prefix (giving `"----x"`),
while the claim predicts only the leading occurrence is rewritten
(giving `"----http-x"`). -/
theorem c1_counterexample :
    args_for_trigger ["--http---http-x".toList] ("http".toList)
        = some ["----x".toList] ∧
    routeClaimedC1 ["--http---http-x".toList] ("http".toList)
        = some ["----http-x".toList] ∧
    args_for_trigger ["--http---http-x".toList] ("http".toList)
        ≠ routeClaimedC1 ["--http---http-x".toList] ("http".toList) := by
  refine ⟨by decide, by decide, by decide⟩

/-! ### Claim C5 -/

/-- C5 (amended): when the partition succeeds, the scoped descriptor's
`metadata.trigger` is obtained from the original `metadata.trigger`
object by keeping each key that starts with `"<type>-"` with EVERY
occurrence of that substring removed (Rust `str::replace`, not only the
leading prefix), dropping other keys, and finally inserting
`type = <type>`; every metadata entry other than `trigger` passes
through unchanged. -/
theorem c5_metadata_demux (d : LockedApp) (tt : Str) (app2 : LockedApp)
    (o : List (Str × Json))
    (h : locked_app_for_trigger d tt = some app2)
    (ho : alGet d.metadata ("trigger".toList) = some (Json.obj o)) :
    alGet app2.metadata ("trigger".toList) = some (Json.obj (rebuildTriggerMeta o tt)) ∧
    ∀ k, k ≠ ("trigger".toList) → alGet app2.metadata k = alGet d.metadata k := by
  obtain ⟨triggers, components, o2, h1, h2, h3, h4⟩ := laft_parts d tt app2 h
  have ho2 : o2 = o := by
    rw [h3] at ho
    exact Json.obj.inj (Option.some_inj.mp ho)
  subst ho2
  constructor
  · rw [h4]
    exact alGet_alPut_self d.metadata ("trigger".toList) (Json.obj (rebuildTriggerMeta o2 tt))
  · intro k hk
    rw [h4]
    exact alGet_alPut_ne d.metadata ("trigger".toList) k (Json.obj (rebuildTriggerMeta o2 tt)) hk

/-- Witness for C5: the spec's metadata demultiplexing example,
`trigger = ((http-base, /), (redis-address, x))` scoped to http gives
`((base, /), (type, http))`, other metadata entries untouched. -/
theorem c5_metadata_demux_witness :
    alGet app7res.metadata ("trigger".toList) =
      some (Json.obj (rebuildTriggerMeta
        [("http-base".toList, Json.str ("/".toList)),
         ("redis-address".toList, Json.str ("x".toList))] ("http".toList))) ∧
    ∀ k, k ≠ ("trigger".toList) →
      alGet app7res.metadata k = alGet d7.metadata k :=
  c5_metadata_demux d7 ("http".toList) app7res
    [("http-base".toList, Json.str ("/".toList)),
     ("redis-address".toList, Json.str ("x".toList))] rfl rfl

/-- Counterexample to C5 as stated: on the key `"http-http-x"` the code
strips every occurrence of `"http-"`, producing key `"x"`, while the
claim's construction (leading prefix only) produces key `"http-x"`;
the resulting trigger maps differ. -/
theorem c5_counterexample :
    (locked_app_for_trigger d5 ("http".toList)).map
        (fun a => alGet a.metadata ("trigger".toList))
      = some (some (Json.obj [("x".toList, Json.str ("v".toList)),
          ("type".toList, Json.str ("http".toList))])) ∧
    rebuildTriggerMetaClaimed [("http-http-x".toList, Json.str ("v".toList))] ("http".toList)
      = [("http-x".toList, Json.str ("v".toList)),
         ("type".toList, Json.str ("http".toList))] ∧
    (locked_app_for_trigger d5 ("http".toList)).map
        (fun a => alGet a.metadata ("trigger".toList))
      ≠ some (some (Json.obj (rebuildTriggerMetaClaimed
          [("http-http-x".toList, Json.str ("v".toList))] ("http".toList)))) := by
  refine ⟨rfl, rfl, ?_⟩
  intro hEq
  have h2 := congrArg
    (fun x => x.bind (fun y => y.bind (fun j => j.getVal ("http-x".toList)))) hEq
  exact Option.noConfusion h2

/-! ### Claim C6 -/

/-- C6: when the partition for type `tt` succeeds, every trigger of the
scoped descriptor has `trigger_type = tt` and no `type` key left in its
config; consequently scoped descriptors of two distinct types never
share a `trigger_type` value. -/
theorem c6_type_promotion (d : LockedApp) (tt : Str) (app2 : LockedApp)
    (h : locked_app_for_trigger d tt = some app2) :
    (∀ t ∈ app2.triggers, t.trigger_type = tt ∧
        t.trigger_config.getVal ("type".toList) = none) ∧
    (∀ tb appB, tt ≠ tb → locked_app_for_trigger d tb = some appB →
      ∀ t ∈ app2.triggers, ∀ u ∈ appB.triggers, t.trigger_type ≠ u.trigger_type) := by
  have main : ∀ (tt2 : Str) (a2 : LockedApp), locked_app_for_trigger d tt2 = some a2 →
      ∀ t ∈ a2.triggers, t.trigger_type = tt2 ∧
        t.trigger_config.getVal ("type".toList) = none := by
    intro tt2 a2 h2 t ht
    obtain ⟨triggers, components, o, h1, _, _, h4⟩ := laft_parts d tt2 a2 h2
    rw [h4] at ht
    obtain ⟨s, hs, hu⟩ := mapOpt_mem uncompositify _ triggers h1 t ht
    have hpred : typeMatches tt2 s = true := (List.mem_filter.mp hs).2
    obtain ⟨m, hm, hu2⟩ := typeMatches_uncomp tt2 s hpred
    rw [hu] at hu2
    have ht2 : t = { s with
        trigger_type := tt2
        trigger_config := Json.obj (alDrop m ("type".toList)) } :=
      Option.some_inj.mp hu2
    subst ht2
    refine ⟨rfl, ?_⟩
    simp only [Json.getVal]
    exact alGet_alDrop_self m ("type".toList)
  refine ⟨main tt app2 h, ?_⟩
  intro tb appB hne hB t ht u hu
  rw [(main tt app2 h t ht).1, (main tb appB hB u hu).1]
  exact hne

/-- Witness for C6 at the end-to-end example, scoped to http. -/
theorem c6_type_promotion_witness :
    (∀ t ∈ app7res.triggers, t.trigger_type = ("http".toList) ∧
        t.trigger_config.getVal ("type".toList) = none) ∧
    (∀ tb appB, ("http".toList) ≠ tb → locked_app_for_trigger d7 tb = some appB →
      ∀ t ∈ app7res.triggers, ∀ u ∈ appB.triggers, t.trigger_type ≠ u.trigger_type) :=
  c6_type_promotion d7 ("http".toList) app7res rfl

/-! ### Claim C7 -/

/-- C7: when the partition succeeds, the scoped descriptor's components
are exactly those components of the source whose id equals the
`trigger_config.component` of at least one trigger surviving the type
filter. -/
theorem c7_orphan_removal (d : LockedApp) (tt : Str) (app2 : LockedApp)
    (h : locked_app_for_trigger d tt = some app2) :
    ∀ c, c ∈ app2.components ↔
      (c ∈ d.components ∧
        ∃ t ∈ survivingTriggers d tt, trigger_component_id t = some c.id) := by
  obtain ⟨triggers, components, o, h1, h2, h3, h4⟩ := laft_parts d tt app2 h
  have h1s : mapOpt uncompositify (survivingTriggers d tt) = some triggers := h1
  intro c
  rw [h4]
  have hcomp := filterOpt_eq _ _ _ h2
  have hforall := filterOpt_forall _ _ _ h2
  subst hcomp
  have hiffex := mapOpt_exists_iff uncompositify (survivingTriggers d tt) triggers
    (fun t => trigger_component_id t = some c.id)
    (fun t => trigger_component_id t = some c.id)
    (fun a b hab => by
      show trigger_component_id b = some c.id ↔ trigger_component_id a = some c.id
      rw [uncomp_component a b hab]) h1s
  constructor
  · intro hc
    obtain ⟨hcd, hdec⟩ := List.mem_filter.mp hc
    have hdec2 : is_id_present triggers c.id = some true := of_decide_eq_true hdec
    have hex : ∃ t ∈ triggers, trigger_component_id t = some c.id :=
      (is_id_present_iff triggers c.id true hdec2).mp rfl
    exact ⟨hcd, hiffex.mp hex⟩
  · rintro ⟨hcd, hex⟩
    have hexr : ∃ t ∈ triggers, trigger_component_id t = some c.id := hiffex.mpr hex
    have hsome := hforall c hcd
    cases hb : is_id_present triggers c.id with
    | none => rw [hb] at hsome; simp at hsome
    | some b =>
      have hbtrue : b = true := (is_id_present_iff triggers c.id b hb).mpr hexr
      subst hbtrue
      refine List.mem_filter.mpr ⟨hcd, ?_⟩
      simp [hb]

/-- Witness for C7: in the end-to-end example scoped to http, the
component `c2` (referenced only by the redis trigger) is characterised
as absent. -/
theorem c7_orphan_removal_witness :
    c2comp ∈ app7res.components ↔
      (c2comp ∈ d7.components ∧
        ∃ t ∈ survivingTriggers d7 ("http".toList),
          trigger_component_id t = some c2comp.id) :=
  c7_orphan_removal d7 ("http".toList) app7res rfl c2comp

/-! ### Claim C4 -/

/-- C4 (amended): the partition panics (fails) when the descriptor's
metadata has no `trigger` entry; conversely it returns a scoped
descriptor whenever `metadata.trigger` is an object and every trigger
surviving the type filter carries a string `component` value.  A trigger
lacking the `type` key is silently excluded by the filter rather than
being fatal, and a surviving trigger lacking `component` is fatal only
when the component filter actually inspects it. -/
theorem c4_malformed_descriptor (d : LockedApp) (tt : Str) :
    (alGet d.metadata ("trigger".toList) = none → locked_app_for_trigger d tt = none) ∧
    (∀ o, alGet d.metadata ("trigger".toList) = some (Json.obj o) →
      (∀ t ∈ survivingTriggers d tt, (trigger_component_id t).isSome = true) →
      (locked_app_for_trigger d tt).isSome = true) := by
  constructor
  · intro hm
    cases h1 : mapOpt uncompositify (List.filter (typeMatches tt) d.triggers) with
    | none => simp only [locked_app_for_trigger, h1]
    | some triggers =>
      cases h2 : filterOpt (fun c => is_id_present triggers c.id) d.components with
      | none => simp only [locked_app_for_trigger, h1, h2]
      | some components => simp only [locked_app_for_trigger, h1, h2, hm]
  · intro o hm hcomp
    simp only [survivingTriggers] at hcomp
    have hmap : ∀ t ∈ List.filter (typeMatches tt) d.triggers,
        (uncompositify t).isSome = true := by
      intro t ht
      have hpred : typeMatches tt t = true := (List.mem_filter.mp ht).2
      obtain ⟨m, _, hu⟩ := typeMatches_uncomp tt t hpred
      rw [hu]
      rfl
    have h1s := mapOpt_isSome uncompositify (List.filter (typeMatches tt) d.triggers) hmap
    cases h1 : mapOpt uncompositify (List.filter (typeMatches tt) d.triggers) with
    | none => rw [h1] at h1s; simp at h1s
    | some triggers =>
      have htr : ∀ t ∈ triggers, (trigger_component_id t).isSome = true := by
        intro t ht
        obtain ⟨s, hs, hu⟩ := mapOpt_mem uncompositify _ triggers h1 t ht
        rw [uncomp_component s t hu]
        exact hcomp s hs
      have h2s := filterOpt_isSome (fun c => is_id_present triggers c.id) d.components
        (fun c _ => is_id_present_isSome triggers c.id htr)
      cases h2 : filterOpt (fun c => is_id_present triggers c.id) d.components with
      | none => rw [h2] at h2s; simp at h2s
      | some components => simp only [locked_app_for_trigger, h1, h2, hm, Json.asObj, Option.isSome_some]

/-- Witness for C4: a descriptor without `metadata.trigger` makes the
partition fail; the well-formed example descriptor makes it succeed. -/
theorem c4_malformed_descriptor_witness :
    (locked_app_for_trigger (LockedApp.mk [] [] []) ("http".toList) = none) ∧
    ((locked_app_for_trigger d7 ("http".toList)).isSome = true) :=
  ⟨(c4_malformed_descriptor (LockedApp.mk [] [] []) ("http".toList)).1 rfl,
   (c4_malformed_descriptor d7 ("http".toList)).2
     [("http-base".toList, Json.str ("/".toList)),
      ("redis-address".toList, Json.str ("x".toList))] rfl
     (by
       intro t ht
       have hsurv : survivingTriggers d7 ("http".toList) = [t1trig] := rfl
       rw [hsurv] at ht
       simp only [List.mem_singleton] at ht
       subst ht
       rfl)⟩

/-- Counterexample to C4 as stated: in `dC4` a trigger lacks the `type`
key and a surviving http trigger lacks the `component` key, yet the
partition returns a scoped descriptor instead of failing (the former is
silently filtered out, the latter is never inspected because an earlier
trigger already matched the only component). -/
theorem c4_counterexample :
    (dC4.triggers.any fun t => (t.trigger_config.getVal ("type".toList)).isNone) = true ∧
    ((List.filter (typeMatches ("http".toList)) dC4.triggers).any
      fun t => (trigger_component_id t).isNone) = true ∧
    (locked_app_for_trigger dC4 ("http".toList)).isSome = true :=
  ⟨rfl, rfl, rfl⟩

/-! ### Claim C2 -/

/-- C2 (amended): for an absolute working directory, when serialization
and the filesystem write succeed, the writer serializes the descriptor
and writes it to `workingDir/spin.<type>.lock` (not
`manifest.<type>.lock`), overwriting any existing entry at that path,
and returns a file URL addressing the written path. -/
theorem c2_write_path (env : Env) (fs : FS) (app : LockedApp) (tt wd bs : Str)
    (hser : env.serializeResult app = some bs)
    (hw : env.fsWriteOk (lockPath wd tt) = true)
    (habs : strStartsWith ['/'] wd = true) :
    write_locked_app env fs app tt wd =
      (alPut fs (lockPath wd tt) bs,
       WriteOutcome.ok ("file://".toList ++ lockPath wd tt)) ∧
    alGet (alPut fs (lockPath wd tt) bs) (lockPath wd tt) = some bs := by
  have hpath : strStartsWith ['/'] (lockPath wd tt) = true := by
    cases wd with
    | nil => simp [strStartsWith] at habs
    | cons c cs =>
      have hc : ('/' == c) = true := by
        simpa [strStartsWith] using habs
      simp [lockPath, pathJoin, strStartsWith, hc]
  constructor
  · simp only [write_locked_app, hser, hw, if_true, urlFromFilePath, hpath]
  · exact alGet_alPut_self fs (lockPath wd tt) bs

/-- Witness for C2 at a concrete environment, descriptor and absolute
working directory. -/
theorem c2_write_path_witness :
    write_locked_app envOk [] appEmptyTrig ("http".toList) ("/w".toList) =
      (alPut [] (lockPath ("/w".toList) ("http".toList)) ("B".toList),
       WriteOutcome.ok ("file://".toList ++ lockPath ("/w".toList) ("http".toList))) ∧
    alGet (alPut [] (lockPath ("/w".toList) ("http".toList)) ("B".toList))
      (lockPath ("/w".toList) ("http".toList)) = some ("B".toList) :=
  c2_write_path envOk [] appEmptyTrig ("http".toList) ("/w".toList) ("B".toList)
    rfl rfl (by decide)

/-- Counterexample to C2 as stated: a successful write returns the URL
of `/w/spin.http.lock`, and nothing is written at the claimed path
`/w/manifest.http.lock`. -/
theorem c2_counterexample :
    (write_locked_app envOk [] appEmptyTrig ("http".toList) ("/w".toList)).2
        = WriteOutcome.ok ("file:///w/spin.http.lock".toList) ∧
    alGet (write_locked_app envOk [] appEmptyTrig ("http".toList) ("/w".toList)).1
        (manifestPath ("/w".toList) ("http".toList)) = none :=
  ⟨rfl, rfl⟩

/-! ### Claim C10 -/

/-- C10: the writer performs the filesystem write before converting the
path to a file URL, so for a relative working directory (URL conversion
fails) it returns an error even though the manifest file has already
been written: an error result does not imply no file was created. -/
theorem c10_write_before_url (env : Env) (fs : FS) (app : LockedApp) (tt wd bs : Str)
    (hser : env.serializeResult app = some bs)
    (hw : env.fsWriteOk (lockPath wd tt) = true)
    (hrel : strStartsWith ['/'] wd = false) :
    write_locked_app env fs app tt wd =
      (alPut fs (lockPath wd tt) bs, WriteOutcome.urlFailed) ∧
    alGet (write_locked_app env fs app tt wd).1 (lockPath wd tt) = some bs := by
  have hpath : strStartsWith ['/'] (lockPath wd tt) = false := by
    cases wd with
    | nil => rfl
    | cons c cs =>
      have hc : ('/' == c) = false := by
        simpa [strStartsWith] using hrel
      simp [lockPath, pathJoin, strStartsWith, hc]
  have hmain : write_locked_app env fs app tt wd =
      (alPut fs (lockPath wd tt) bs, WriteOutcome.urlFailed) := by
    simp only [write_locked_app, hser, hw, if_true, urlFromFilePath, hpath]
    simp
  refine ⟨hmain, ?_⟩
  rw [hmain]
  exact alGet_alPut_self fs (lockPath wd tt) bs

/-- Witness for C10: with the relative working directory `w` the write
lands in the state, the outcome is the URL conversion error. -/
theorem c10_write_before_url_witness :
    write_locked_app envOk [] appEmptyTrig ("http".toList) ("w".toList) =
      (alPut [] (lockPath ("w".toList) ("http".toList)) ("B".toList),
       WriteOutcome.urlFailed) ∧
    alGet (write_locked_app envOk [] appEmptyTrig ("http".toList) ("w".toList)).1
      (lockPath ("w".toList) ("http".toList)) = some ("B".toList) :=
  c10_write_before_url envOk [] appEmptyTrig ("http".toList) ("w".toList) ("B".toList)
    rfl rfl (by decide)

/-! ### Claim C3 -/

/-- C3 (amended): the per-type loop interleaves writes and spawns: the
trace is write-then-spawn for each processed type in order (a prefix of
the discovered types, all of them when the loop completes).  Each type's
manifest write completes before that type's child is handed to the
spawner, and a failure stops the loop with no further events — but
children of earlier types have already been launched, so a write
failure does not imply that no child was launched. -/
theorem c3_interleaved_launch (env : Env) (rawArgs : List Str) (wd : Str)
    (app : LockedApp) (fs : FS) (types : List Str) :
    ∃ done rest2, types = done ++ rest2 ∧
      (runEvents env rawArgs wd app fs types).1 = launchTrace done ∧
      ((runEvents env rawArgs wd app fs types).2 = true → rest2 = []) := by
  induction types generalizing fs with
  | nil => exact ⟨[], [], rfl, rfl, fun _ => rfl⟩
  | cons tt rest ih =>
    cases hp : locked_app_for_trigger app tt with
    | none =>
      refine ⟨[], tt :: rest, rfl, ?_, ?_⟩
      · simp [runEvents, hp, launchTrace]
      · simp [runEvents, hp]
    | some subapp =>
      cases ha : args_for_trigger rawArgs tt with
      | none =>
        refine ⟨[], tt :: rest, rfl, ?_, ?_⟩
        · simp [runEvents, hp, ha, launchTrace]
        · simp [runEvents, hp, ha]
      | some args2 =>
        cases hw : write_locked_app env fs subapp tt wd with
        | mk fs2 outcome =>
          cases outcome with
          | ok u =>
            obtain ⟨done, rest2, hsplit, htrace, hdone⟩ := ih fs2
            refine ⟨tt :: done, rest2, by rw [hsplit]; rfl, ?_, ?_⟩
            · simp only [runEvents, hp, ha, hw, launchTrace]
              rw [htrace]
            · intro hok
              apply hdone
              simpa [runEvents, hp, ha, hw] using hok
          | serializeFailed =>
            refine ⟨[], tt :: rest, rfl, ?_, ?_⟩
            · simp [runEvents, hp, ha, hw, launchTrace]
            · simp [runEvents, hp, ha, hw]
          | writeFailed =>
            refine ⟨[], tt :: rest, rfl, ?_, ?_⟩
            · simp [runEvents, hp, ha, hw, launchTrace]
            · simp [runEvents, hp, ha, hw]
          | urlFailed =>
            refine ⟨[], tt :: rest, rfl, ?_, ?_⟩
            · simp [runEvents, hp, ha, hw, launchTrace]
            · simp [runEvents, hp, ha, hw]

/-- Witness for C3 at a concrete run over one trigger type. -/
theorem c3_interleaved_launch_witness :
    ∃ done rest2, (["a".toList] : List Str) = done ++ rest2 ∧
      (runEvents envOk [] ("/w".toList) appEmptyTrig [] ["a".toList]).1
        = launchTrace done ∧
      ((runEvents envOk [] ("/w".toList) appEmptyTrig [] ["a".toList]).2 = true →
        rest2 = []) :=
  c3_interleaved_launch envOk [] ("/w".toList) appEmptyTrig [] ["a".toList]

/-- Counterexample to C3 as stated: a fully successful run over two
trigger types produces the trace write, spawn, write, spawn — the
second manifest write happens after the first child has been spawned,
so not every write precedes the first spawn. -/
theorem c3_counterexample :
    writesBeforeSpawns (runEvents envOk [] ("/w".toList) appEmptyTrig []
      ["alpha".toList, "beta".toList]).1 = false ∧
    (runEvents envOk [] ("/w".toList) appEmptyTrig []
      ["alpha".toList, "beta".toList]).2 = true :=
  ⟨rfl, rfl⟩

end Larks
